import Mathlib

/-!
Verification of the Bayesian-optimization candidate-selection core of the
`sagemaker_tune` repository, shallowly embedded in Lean 4.

The main source file embedded here is
`sagemaker_tune/optimizer/schedulers/searchers/bayesopt/tuning_algorithms/bo_algorithm.py`
(`BayesianOptimizationAlgorithm.next_candidates`, `_get_next_candidates`,
`_order_candidates`, `_lazily_locally_optimize`,
`_pick_from_locally_optimized`), together with
`sagemaker_tune/optimizer/schedulers/searchers/constrained_gp_fifo_searcher.py`
(`ConstrainedGPFIFOSearcher._update`).

Collaborator classes that live in files outside the embedded sources
(`ExclusionList`, `DuplicateDetector`, `ModelStateTransformer`, the candidate
generator, scorer and local optimizer) are modelled from the specification's
description of their interfaces; they are kept abstract (function-valued
fields) wherever the algorithm only calls through them.

Configurations are an arbitrary type `α` with decidable equality (the source
hashes configurations by their numeric encoding, giving decidable equality);
surrogate models are an arbitrary type `μ` (the algorithm never inspects
them, it only passes them to the scorer and the local optimizer); scores are
modelled as integers (the algorithm only ever compares scores, so only their
order matters).  Python's mutation of `self.exclusion_candidates` and of the
state transformer is made explicit by threading the mutated data through the
recursion and returning it in the result record.
-/

namespace SpecProof

variable {α : Type} [DecidableEq α] {μ : Type} {ν : Type}

/-- Modelled from the spec: the Exclusion Registry (`ExclusionList` in
`tuning_algorithms/common.py`, a file not under `src/`).  The spec describes
it as a set of configurations supporting membership (`contains`), insertion
(`add`), a cheap structural `copy` for speculative use during batch
selection, and `config_space_exhausted`, which is true iff the space is
finite and its cardinality equals the number of excluded entries.  The set is
represented as a duplicate-free list (insertion order kept), and the finite
cardinality of the configuration space as an `Option Nat` (`none` =
infinite space). -/
structure ExclusionList (α : Type) where
  configs : List α
  configspace_size : Option Nat

/-- Membership test of the registry (exact match). -/
def ExclusionList.containsc (e : ExclusionList α) (c : α) : Bool :=
  decide (c ∈ e.configs)

/-- Insertion into the registry (set semantics: no duplicate entries). -/
def ExclusionList.add (e : ExclusionList α) (c : α) : ExclusionList α :=
  if c ∈ e.configs then e else ⟨e.configs ++ [c], e.configspace_size⟩

/-- Structural copy of the registry.  In the pure embedding a copy is the
value itself; the effect of Python's `copy()` (mutations of the copy do not
reach the original) is captured by explicit state threading below. -/
def ExclusionList.copy (e : ExclusionList α) : ExclusionList α := e

/-- True iff the configuration space is finite and all of it is excluded. -/
def ExclusionList.config_space_exhausted (e : ExclusionList α) : Bool :=
  decide (e.configspace_size = some e.configs.length)

/-- Model of `ExclusionList.empty_list(hp_ranges)` of the source: a fresh empty
registry over the same hyperparameter ranges (hence the same configuration
space size). -/
def ExclusionList.empty_list (sz : Option Nat) : ExclusionList α := ⟨[], sz⟩

@[simp] theorem ExclusionList.containsc_eq_true_iff (e : ExclusionList α) (c : α) :
    e.containsc c = true ↔ c ∈ e.configs := by
  simp [ExclusionList.containsc]

theorem ExclusionList.containsc_add_self (e : ExclusionList α) (c : α) :
    (e.add c).containsc c = true := by
  unfold ExclusionList.add
  by_cases h : c ∈ e.configs <;> simp [h, ExclusionList.containsc]

theorem ExclusionList.containsc_add_mono (e : ExclusionList α) (c x : α)
    (h : e.containsc x = true) : (e.add c).containsc x = true := by
  unfold ExclusionList.add
  by_cases hc : c ∈ e.configs <;>
    simp_all [ExclusionList.containsc]

theorem ExclusionList.containsc_foldl_add_mono (l : List α) :
    ∀ (e : ExclusionList α) (x : α), e.containsc x = true →
      (l.foldl ExclusionList.add e).containsc x = true := by
  induction l with
  | nil => intro e x h; simpa using h
  | cons c rest ih =>
      intro e x h
      exact ih (e.add c) x (ExclusionList.containsc_add_mono e c x h)

theorem ExclusionList.containsc_foldl_add_of_mem (l : List α) :
    ∀ (e : ExclusionList α) (x : α), x ∈ l →
      (l.foldl ExclusionList.add e).containsc x = true := by
  induction l with
  | nil => intro e x h; cases h
  | cons c rest ih =>
      intro e x h
      rcases List.mem_cons.mp h with rfl | h
      · exact ExclusionList.containsc_foldl_add_mono rest _ _
          (ExclusionList.containsc_add_self e _)
      · exact ih (e.add c) x h

/-- A `DuplicateDetector` (from `utils/duplicate_detector.py`, not under
`src/`) is used only through its `contains(exclusion_list, candidate)`
method, so it is modelled as that function. -/
def DuplicateDetector (α : Type) : Type := ExclusionList α → α → Bool

/-- The detector "performs detection" (it is at least
`DuplicateDetectorIdentical`, not `DuplicateDetectorNoDetection`): every
configuration present in the registry is flagged as a duplicate.  This is the
spec's monotonicity requirement on duplicate detection. -/
def DetectsMembership (dd : DuplicateDetector α) : Prop :=
  ∀ (e : ExclusionList α) (c : α), e.containsc c = true → dd e c = true

/-- Embedding of the `BayesianOptimizationAlgorithm` named tuple of
`bo_algorithm.py`.  The collaborator objects are modelled by the one method
the algorithm calls on each of them:

* `initial_candidates_generator` by `generate_candidates_en_bulk(num,
  exclusion_list)`;
* `initial_candidates_scorer` by `score(candidates, model)`;
* `local_optimizer` by `optimize(candidate, model)`;
* `pending_candidate_state_transformer` by the model it yields: after the
  candidates appended so far (`append_candidate`) and a `skip_optimization`
  flag, `model(skip_optimization=...)` returns a surrogate model.  Prior
  transformer state is absorbed into the function; the list argument is the
  sequence of candidates appended during the current `next_candidates` call.

The `profiler` and `debug_log` fields only produce profiling and log output
(the `debug_log` branch of `_get_next_candidates` re-derives the same ordered
candidate list with scores attached and peeks/re-chains the lazy iterator,
leaving the computed candidates unchanged), so they are omitted. -/
structure BayesianOptimizationAlgorithm (α μ : Type) where
  initial_candidates_generator : Nat → ExclusionList α → List α
  initial_candidates_scorer : List α → Option μ → List Int
  num_initial_candidates : Nat
  local_optimizer : α → Option μ → α
  pending_candidate_state_transformer : Option (List α → Bool → μ)
  exclusion_candidates : ExclusionList α
  num_requested_candidates : Nat
  greedy_batch_selection : Bool
  duplicate_detector : DuplicateDetector α
  sample_unique_candidates : Bool

/-- Helper keeping the first occurrence of every configuration (`seen` is the
set of configurations already kept). -/
def dedupFirst : List α → List α → List α
  | [], _ => []
  | c :: rest, seen =>
      if c ∈ seen then dedupFirst rest seen
      else c :: dedupFirst rest (c :: seen)

/-- Modelled from the spec: `generate_unique_candidates` (from
`tuning_algorithms/common.py`, not under `src/`).  Per the spec, with
`sample_unique_candidates` the initial candidates are verified to be unique
among themselves and disjoint from the exclusion list; the draws come from
the same candidate generator. -/
def generate_unique_candidates (gen : Nat → ExclusionList α → List α)
    (num_candidates : Nat) (exclusion_candidates : ExclusionList α) : List α :=
  (dedupFirst ((gen num_candidates exclusion_candidates).filter
    (fun c => exclusion_candidates.containsc c = false)) []).take num_candidates

/-- Stable insertion of a scored candidate into an already sorted list: the
new pair goes in front of the first pair of equal or larger score. -/
def insertByScore (p : Int × α) : List (Int × α) → List (Int × α)
  | [] => [p]
  | q :: rest => if p.1 ≤ q.1 then p :: q :: rest else q :: insertByScore p rest

/-- Stable sort of (score, candidate) pairs by ascending score, modelling
Python's `sorted(zip(scores, candidates), key=lambda x: x[0])`: `sorted` is
specified to be stable, and a stable sort by key is extensionally unique, so
this structural insertion sort is the same function. -/
def sortByScore : List (Int × α) → List (Int × α)
  | [] => []
  | p :: rest => insertByScore p (sortByScore rest)

/-- Model of `_order_candidates` of `bo_algorithm.py` (the `with_scores` variant only
feeds the debug log; the candidate list it induces is the same). -/
def order_candidates (candidates : List α)
    (scoring_function : List α → Option μ → List Int) (model : Option μ) :
    List α :=
  if candidates.length = 0 then []
  else
    let scores := scoring_function candidates model
    (sortByScore (scores.zip candidates)).map Prod.snd

/-- Model of `_lazily_locally_optimize` of `bo_algorithm.py`: lazily yields
`(candidate, optimized candidate)` pairs, skipping duplicates of candidates
considered already.  The lazy generator is embedded as the finite list of the
pairs it yields; `considered_already` starts as
`ExclusionList.empty_list(hp_ranges)`. -/
def lazily_locally_optimize (local_optimizer : α → Option μ → α)
    (model : Option μ) : List α → ExclusionList α → List (α × α)
  | [], _ => []
  | cand :: rest, considered_already =>
      if considered_already.containsc cand then
        lazily_locally_optimize local_optimizer model rest considered_already
      else
        (cand, local_optimizer cand model) ::
          lazily_locally_optimize local_optimizer model rest
            (considered_already.add cand)

/-- The loop of `_pick_from_locally_optimized`, with the updated exclusion
list and the result accumulated so far made explicit.  Each iteration takes
the optimized candidate if the duplicate detector does not flag it against
`updated_excludelist`, else the original candidate if that one is not
flagged, else neither; an inserted candidate is appended to the result and
added to `updated_excludelist`; after each iteration the loop stops as soon
as `num_candidates` entries have been collected.  (The source's
`insert_candidate` optional, `None` on the skip path, is inlined here into
the three cases of the duplicate tests.) -/
def pickLoop (duplicate_detector : DuplicateDetector α) (num_candidates : Nat) :
    List (α × α) → ExclusionList α → List α → List α
  | [], _, result => result
  | (original_candidate, optimized_candidate) :: rest, updated_excludelist,
      result =>
    if duplicate_detector updated_excludelist optimized_candidate then
      if duplicate_detector updated_excludelist original_candidate then
        if result.length = num_candidates then result
        else pickLoop duplicate_detector num_candidates rest
          updated_excludelist result
      else
        if (result ++ [original_candidate]).length = num_candidates then
          result ++ [original_candidate]
        else pickLoop duplicate_detector num_candidates rest
          (updated_excludelist.add original_candidate)
          (result ++ [original_candidate])
    else
      if (result ++ [optimized_candidate]).length = num_candidates then
        result ++ [optimized_candidate]
      else pickLoop duplicate_detector num_candidates rest
        (updated_excludelist.add optimized_candidate)
        (result ++ [optimized_candidate])

/-- Model of `_pick_from_locally_optimized` of `bo_algorithm.py`. -/
def pick_from_locally_optimized
    (candidates_with_optimization : List (α × α))
    (exclusion_candidates : ExclusionList α) (num_candidates : Nat)
    (duplicate_detector : DuplicateDetector α) : List α :=
  pickLoop duplicate_detector num_candidates candidates_with_optimization
    exclusion_candidates.copy []

/-- Model of `_get_next_candidates` of `bo_algorithm.py`; `excl` is the current value
of the (mutable) `self.exclusion_candidates`. -/
def get_next_candidates (A : BayesianOptimizationAlgorithm α μ)
    (num_candidates : Nat) (model : Option μ) (excl : ExclusionList α) :
    List α :=
  let initial_candidates :=
    if A.sample_unique_candidates then
      generate_unique_candidates A.initial_candidates_generator
        A.num_initial_candidates excl
    else
      A.initial_candidates_generator A.num_initial_candidates excl
  let ordered := order_candidates initial_candidates
    A.initial_candidates_scorer model
  let candidates_with_optimization :=
    lazily_locally_optimize A.local_optimizer model ordered
      (ExclusionList.empty_list excl.configspace_size)
  pick_from_locally_optimized candidates_with_optimization excl
    num_candidates A.duplicate_detector

/-- Result of a `next_candidates` call, with the state that Python mutates in
place returned explicitly: the final `self.exclusion_candidates`
(`exclusion`), the candidates appended to the state transformer during the
call (`pending`), the final value of the local variable `model`
(`modelState`), the number of `_get_next_candidates` calls (`innerCalls`,
one per executed outer iteration) and the number of `logger.warning` events
(`warnings`). -/
structure NextResult (α μ : Type) where
  candidates : List α
  exclusion : ExclusionList α
  pending : List α
  modelState : Option μ
  innerCalls : Nat
  warnings : Nat

/-- The `num_outer_iterations` value of `next_candidates`. -/
def numOuterIterations (A : BayesianOptimizationAlgorithm α μ) : Nat :=
  if A.greedy_batch_selection then A.num_requested_candidates else 1

/-- The `num_inner_candidates` value of `next_candidates`. -/
def numInnerCandidates (A : BayesianOptimizationAlgorithm α μ) : Nat :=
  if A.greedy_batch_selection then 1 else A.num_requested_candidates

/-- The `for outer_iter in range(num_outer_iterations)` loop of
`next_candidates`, by recursion on the number `rem + 1` of remaining
iterations (so the Python condition `outer_iter < num_outer_iterations - 1`
is `0 < rem`).  Mirrors the source line by line: the exhaustion check runs
only when `just_added` is set (initially, and after an iteration that added
candidates); when the current iteration is not the last and picked at least
one candidate, the picks are added to the exclusion registry and appended to
the state transformer (`pending`), and the model is recomputed with
`skip_optimization=True`; finally, a short inner pick with the request not
yet filled logs a warning and breaks.  When the add branch runs, the state
transformer is present (the assertion in `next_candidates` admits a missing
transformer only for a single outer iteration, and then `0 < rem` is never
true), so mapping over the optional transformer is faithful. -/
def nextCandidatesLoop (A : BayesianOptimizationAlgorithm α μ)
    (num_inner_candidates : Nat) :
    Nat → Bool → Option μ → ExclusionList α → List α → List α → Nat → Nat →
    NextResult α μ
  | 0, _, model, excl, pending, candidates, calls, warns =>
      ⟨candidates, excl, pending, model, calls, warns⟩
  | rem + 1, just_added, model, excl, pending, candidates, calls, warns =>
      if just_added = true ∧ excl.config_space_exhausted = true then
        ⟨candidates, excl, pending, model, calls, warns + 1⟩
      else
        -- the source binds the inner pick once as `inner_candidates`; it is
        -- spelled out below, and the final shortfall check (short inner pick
        -- with the request not yet filled) is duplicated into the two
        -- branches of the `outer_iter < num_outer_iterations - 1 and
        -- len(inner_candidates) > 0` test, which does not change its meaning
        if 0 < rem ∧ get_next_candidates A num_inner_candidates model excl ≠ [] then
          if (get_next_candidates A num_inner_candidates model excl).length <
                num_inner_candidates ∧
              (candidates ++ get_next_candidates A num_inner_candidates model
                excl).length < A.num_requested_candidates then
            ⟨candidates ++ get_next_candidates A num_inner_candidates model excl,
             (get_next_candidates A num_inner_candidates model excl).foldl
               ExclusionList.add excl,
             pending ++ get_next_candidates A num_inner_candidates model excl,
             A.pending_candidate_state_transformer.map
               (fun t => t (pending ++ get_next_candidates A
                 num_inner_candidates model excl) true),
             calls + 1, warns + 1⟩
          else
            nextCandidatesLoop A num_inner_candidates rem true
              (A.pending_candidate_state_transformer.map
                (fun t => t (pending ++ get_next_candidates A
                  num_inner_candidates model excl) true))
              ((get_next_candidates A num_inner_candidates model excl).foldl
                ExclusionList.add excl)
              (pending ++ get_next_candidates A num_inner_candidates model excl)
              (candidates ++ get_next_candidates A num_inner_candidates model excl)
              (calls + 1) warns
        else
          if (get_next_candidates A num_inner_candidates model excl).length <
                num_inner_candidates ∧
              (candidates ++ get_next_candidates A num_inner_candidates model
                excl).length < A.num_requested_candidates then
            ⟨candidates ++ get_next_candidates A num_inner_candidates model excl,
             excl, pending, model, calls + 1, warns + 1⟩
          else
            nextCandidatesLoop A num_inner_candidates rem false model excl
              pending
              (candidates ++ get_next_candidates A num_inner_candidates model excl)
              (calls + 1) warns

/-- Model of `BayesianOptimizationAlgorithm.next_candidates` of `bo_algorithm.py`.
The failing `assert` (a state transformer is needed when more than one outer
iteration will run) is an `AssertionError` surfaced to the caller, embedded
as `Except.error` with the assertion's message. -/
def next_candidates (A : BayesianOptimizationAlgorithm α μ) :
    Except String (NextResult α μ) :=
  if numOuterIterations A ≠ 1 ∧
      A.pending_candidate_state_transformer.isNone = true then
    Except.error
      "Need pending_candidate_state_transformer for greedy batch selection"
  else
    Except.ok (nextCandidatesLoop A (numInnerCandidates A)
      (numOuterIterations A) true none A.exclusion_candidates [] [] 0 0)

/-! ### Lemmas about the final selection loop -/

theorem containsc_false_of_detector_false {dd : DuplicateDetector α}
    (hdet : DetectsMembership dd) {e : ExclusionList α} {c : α}
    (h : dd e c = false) : e.containsc c = false := by
  cases hc : e.containsc c with
  | false => rfl
  | true => rw [hdet e c hc] at h; cases h

theorem containsc_false_of_add_false {e : ExclusionList α} {c x : α}
    (h : (e.add c).containsc x = false) : e.containsc x = false := by
  cases hc : e.containsc x with
  | false => rfl
  | true => rw [ExclusionList.containsc_add_mono e c x hc] at h; cases h


/-- One accepted step of the selection loop: the inserted candidate `c` is
fresh for `upd`, so the branch (stop or recurse on `upd.add c`,
`result ++ [c]`) keeps the loop invariant. -/
theorem pickLoop_step_nodup_fresh {dd : DuplicateDetector α} {num : Nat}
    {rest : List (α × α)} {upd : ExclusionList α} {result : List α} {c : α}
    (ih : ∀ (upd : ExclusionList α) (result : List α), result.Nodup →
      (∀ a ∈ result, upd.containsc a = true) →
      (pickLoop dd num rest upd result).Nodup ∧
        ∀ x ∈ pickLoop dd num rest upd result,
          x ∈ result ∨ upd.containsc x = false)
    (hnd : result.Nodup) (hrec : ∀ a ∈ result, upd.containsc a = true)
    (hfresh : upd.containsc c = false) :
    (if (result ++ [c]).length = num then result ++ [c]
      else pickLoop dd num rest (upd.add c) (result ++ [c])).Nodup ∧
      ∀ x ∈ (if (result ++ [c]).length = num then result ++ [c]
        else pickLoop dd num rest (upd.add c) (result ++ [c])),
        x ∈ result ∨ upd.containsc x = false := by
  have hnotmem : c ∉ result := fun hm => by
    rw [hrec c hm] at hfresh; cases hfresh
  have hnd2 : (result ++ [c]).Nodup := by
    simp [List.nodup_append, hnd, hnotmem]
  have hrec2 : ∀ a ∈ result ++ [c], (upd.add c).containsc a = true := by
    intro a ha
    rcases List.mem_append.mp ha with ha | ha
    · exact ExclusionList.containsc_add_mono _ _ _ (hrec a ha)
    · simp only [List.mem_singleton] at ha
      subst ha
      exact ExclusionList.containsc_add_self _ _
  split
  · refine ⟨hnd2, fun x hx => ?_⟩
    rcases List.mem_append.mp hx with hx | hx
    · exact Or.inl hx
    · simp only [List.mem_singleton] at hx
      subst hx; exact Or.inr hfresh
  · obtain ⟨h1, h2⟩ := ih (upd.add c) (result ++ [c]) hnd2 hrec2
    refine ⟨h1, fun x hx => ?_⟩
    rcases h2 x hx with hx2 | hx2
    · rcases List.mem_append.mp hx2 with hx3 | hx3
      · exact Or.inl hx3
      · simp only [List.mem_singleton] at hx3
        subst hx3; exact Or.inr hfresh
    · exact Or.inr (containsc_false_of_add_false hx2)

/-- Core invariant of the selection loop: under a detector that performs
detection, the produced list extends `result` only by configurations that
were not in `updated_excludelist` when the loop was entered, and it has no
duplicates (given that `result` has none and is recorded in
`updated_excludelist`). -/
theorem pickLoop_nodup_fresh {dd : DuplicateDetector α}
    (hdet : DetectsMembership dd) (num : Nat) :
    ∀ (stream : List (α × α)) (upd : ExclusionList α) (result : List α),
      result.Nodup → (∀ a ∈ result, upd.containsc a = true) →
      (pickLoop dd num stream upd result).Nodup ∧
        ∀ c ∈ pickLoop dd num stream upd result,
          c ∈ result ∨ upd.containsc c = false := by
  intro stream
  induction stream with
  | nil =>
      intro upd result hnd hrec
      exact ⟨hnd, fun c hc => Or.inl hc⟩
  | cons p rest ih =>
      intro upd result hnd hrec
      obtain ⟨original, optimized⟩ := p
      cases hopt : dd upd optimized with
      | false =>
          rw [pickLoop, if_neg (by simp [hopt])]
          exact pickLoop_step_nodup_fresh ih hnd hrec
            (containsc_false_of_detector_false hdet hopt)
      | true =>
          cases horig : dd upd original with
          | false =>
              rw [pickLoop, if_pos hopt, if_neg (by simp [horig])]
              exact pickLoop_step_nodup_fresh ih hnd hrec
                (containsc_false_of_detector_false hdet horig)
          | true =>
              rw [pickLoop, if_pos hopt, if_pos horig]
              split
              · exact ⟨hnd, fun c hc => Or.inl hc⟩
              · exact ih upd result hnd hrec

/-- One accepted step of the selection loop keeps the length bound. -/
theorem pickLoop_step_length {dd : DuplicateDetector α} {num : Nat}
    {rest : List (α × α)} {upd : ExclusionList α} {result : List α} {c : α}
    (ih : ∀ (upd : ExclusionList α) (result : List α), result.length < num →
      (pickLoop dd num rest upd result).length ≤ num)
    (h : result.length < num) :
    (if (result ++ [c]).length = num then result ++ [c]
      else pickLoop dd num rest (upd.add c) (result ++ [c])).length ≤ num := by
  split
  · rename_i hlen
    exact Nat.le_of_eq hlen
  · rename_i hlen
    refine ih _ _ ?_
    have hle : (result ++ [c]).length ≤ num := by
      simpa [List.length_append] using Nat.succ_le_of_lt h
    exact Nat.lt_of_le_of_ne hle hlen

/-- The selection loop never returns more than `num` candidates, provided it
is entered with fewer than `num` collected. -/
theorem pickLoop_length {dd : DuplicateDetector α} {num : Nat} :
    ∀ (stream : List (α × α)) (upd : ExclusionList α) (result : List α),
      result.length < num → (pickLoop dd num stream upd result).length ≤ num := by
  intro stream
  induction stream with
  | nil => intro upd result h; exact Nat.le_of_lt h
  | cons p rest ih =>
      intro upd result h
      obtain ⟨original, optimized⟩ := p
      cases hopt : dd upd optimized with
      | false =>
          rw [pickLoop, if_neg (by simp [hopt])]
          exact pickLoop_step_length ih h
      | true =>
          cases horig : dd upd original with
          | false =>
              rw [pickLoop, if_pos hopt, if_neg (by simp [horig])]
              exact pickLoop_step_length ih h
          | true =>
              rw [pickLoop, if_pos hopt, if_pos horig]
              split
              · exact Nat.le_of_lt h
              · exact ih _ _ h

/-- The selection `_pick_from_locally_optimized` returns candidates that have no
duplicates and are all outside the exclusion list it was given, whenever the
duplicate detector performs detection. -/
theorem pick_from_locally_optimized_nodup_fresh {dd : DuplicateDetector α}
    (hdet : DetectsMembership dd) (stream : List (α × α))
    (excl : ExclusionList α) (num : Nat) :
    (pick_from_locally_optimized stream excl num dd).Nodup ∧
      ∀ c ∈ pick_from_locally_optimized stream excl num dd,
        excl.containsc c = false := by
  obtain ⟨h1, h2⟩ := pickLoop_nodup_fresh hdet num stream excl.copy []
    List.nodup_nil (by intro a ha; cases ha)
  refine ⟨h1, fun c hc => ?_⟩
  rcases h2 c hc with hc2 | hc2
  · cases hc2
  · exact hc2

theorem pick_from_locally_optimized_length {dd : DuplicateDetector α}
    (stream : List (α × α)) (excl : ExclusionList α) {num : Nat}
    (h : 0 < num) :
    (pick_from_locally_optimized stream excl num dd).length ≤ num :=
  pickLoop_length stream excl.copy [] h

/-- The inner step `_get_next_candidates` returns candidates that have no duplicates and
are all outside the exclusion list, whenever the detector performs
detection. -/
theorem get_next_candidates_nodup_fresh (A : BayesianOptimizationAlgorithm α μ)
    (hdet : DetectsMembership A.duplicate_detector) (num : Nat)
    (model : Option μ) (excl : ExclusionList α) :
    (get_next_candidates A num model excl).Nodup ∧
      ∀ c ∈ get_next_candidates A num model excl,
        excl.containsc c = false :=
  pick_from_locally_optimized_nodup_fresh hdet _ excl num

theorem get_next_candidates_length (A : BayesianOptimizationAlgorithm α μ)
    {num : Nat} (model : Option μ) (excl : ExclusionList α) (h : 0 < num) :
    (get_next_candidates A num model excl).length ≤ num :=
  pick_from_locally_optimized_length _ excl h

/-- The final-selection rule exactly as the specification words it (the
reference definition for the refinement theorem below): walking the
`(original, refined)` pair stream, stop as soon as the requested number of
candidates is accepted or the stream is exhausted; otherwise accept the
refined point unless it collides (per the duplicate detector) with an
already-selected or already-excluded configuration, fall back to the
pre-refinement original if the refined point collides but the original does
not, and skip the pair entirely when both collide.  Accepted candidates
join the excluded set. -/
def acceptance_rule_spec (duplicate_detector : DuplicateDetector α)
    (request_count : Nat) :
    List (α × α) → ExclusionList α → List α → List α
  | [], _, selected => selected
  | (original, refined) :: rest, excluded, selected =>
      if selected.length = request_count then selected
      else if duplicate_detector excluded refined = false then
        acceptance_rule_spec duplicate_detector request_count rest
          (excluded.add refined) (selected ++ [refined])
      else if duplicate_detector excluded original = false then
        acceptance_rule_spec duplicate_detector request_count rest
          (excluded.add original) (selected ++ [original])
      else
        acceptance_rule_spec duplicate_detector request_count rest
          excluded selected

theorem acceptance_rule_spec_of_full {dd : DuplicateDetector α} {num : Nat} :
    ∀ (stream : List (α × α)) (excluded : ExclusionList α)
      (selected : List α), selected.length = num →
      acceptance_rule_spec dd num stream excluded selected = selected := by
  intro stream
  cases stream with
  | nil => intro excluded selected h; rfl
  | cons p rest =>
      intro excluded selected h
      obtain ⟨original, refined⟩ := p
      rw [acceptance_rule_spec, if_pos h]

/-- As long as fewer than `num` candidates have been collected, the source's
selection loop and the specification's acceptance rule coincide (the source
checks the stop condition after inserting, the spec rule before consuming
the next pair; the two agree from any state below the stop threshold). -/
theorem pickLoop_eq_acceptance_rule {dd : DuplicateDetector α} {num : Nat} :
    ∀ (stream : List (α × α)) (upd : ExclusionList α) (result : List α),
      result.length < num →
      pickLoop dd num stream upd result =
        acceptance_rule_spec dd num stream upd result := by
  intro stream
  induction stream with
  | nil => intro upd result h; rfl
  | cons p rest ih =>
      intro upd result h
      obtain ⟨original, refined⟩ := p
      have hne : result.length ≠ num := Nat.ne_of_lt h
      cases hopt : dd upd refined with
      | false =>
          have hopt' : ¬ dd upd refined = true := by simp [hopt]
          rw [pickLoop, if_neg hopt', acceptance_rule_spec, if_neg hne,
            if_pos hopt]
          split
          · rename_i hlen
            exact (acceptance_rule_spec_of_full rest _ _ hlen).symm
          · rename_i hlen
            refine ih _ _ ?_
            have hle : (result ++ [refined]).length ≤ num := by
              simpa [List.length_append] using Nat.succ_le_of_lt h
            exact Nat.lt_of_le_of_ne hle hlen
      | true =>
          have hopt' : ¬ dd upd refined = false := by simp [hopt]
          cases horig : dd upd original with
          | false =>
              have horig' : ¬ dd upd original = true := by simp [horig]
              rw [pickLoop, if_pos hopt, if_neg horig',
                acceptance_rule_spec, if_neg hne, if_neg hopt',
                if_pos horig]
              split
              · rename_i hlen
                exact (acceptance_rule_spec_of_full rest _ _ hlen).symm
              · rename_i hlen
                refine ih _ _ ?_
                have hle : (result ++ [original]).length ≤ num := by
                  simpa [List.length_append] using Nat.succ_le_of_lt h
                exact Nat.lt_of_le_of_ne hle hlen
          | true =>
              have horig' : ¬ dd upd original = false := by simp [horig]
              rw [pickLoop, if_pos hopt, if_pos horig,
                acceptance_rule_spec, if_neg hne, if_neg hopt',
                if_neg horig', if_neg hne]
              exact ih _ _ h

/-! ### Lemmas about the outer loop of next_candidates -/

theorem nextCandidatesLoop_zero (A : BayesianOptimizationAlgorithm α μ)
    (ni : Nat) (just : Bool) (model : Option μ) (excl : ExclusionList α)
    (pending candidates : List α) (calls warns : Nat) :
    nextCandidatesLoop A ni 0 just model excl pending candidates calls warns =
      ⟨candidates, excl, pending, model, calls, warns⟩ := rfl

theorem nextCandidatesLoop_exhausted (A : BayesianOptimizationAlgorithm α μ)
    (ni rem : Nat) (just : Bool) (model : Option μ) (excl : ExclusionList α)
    (pending candidates : List α) (calls warns : Nat)
    (h : just = true ∧ excl.config_space_exhausted = true) :
    nextCandidatesLoop A ni (rem + 1) just model excl pending candidates calls
      warns = ⟨candidates, excl, pending, model, calls, warns + 1⟩ := by
  rw [nextCandidatesLoop, if_pos h]

theorem nextCandidatesLoop_add_break (A : BayesianOptimizationAlgorithm α μ)
    (ni rem : Nat) (just : Bool) (model : Option μ) (excl : ExclusionList α)
    (pending candidates : List α) (calls warns : Nat)
    (hx : ¬(just = true ∧ excl.config_space_exhausted = true))
    (hAdd : 0 < rem ∧ get_next_candidates A ni model excl ≠ [])
    (hshort : (get_next_candidates A ni model excl).length < ni ∧
      (candidates ++ get_next_candidates A ni model excl).length <
        A.num_requested_candidates) :
    nextCandidatesLoop A ni (rem + 1) just model excl pending candidates calls
      warns =
      ⟨candidates ++ get_next_candidates A ni model excl,
       (get_next_candidates A ni model excl).foldl ExclusionList.add excl,
       pending ++ get_next_candidates A ni model excl,
       A.pending_candidate_state_transformer.map
         (fun t => t (pending ++ get_next_candidates A ni model excl) true),
       calls + 1, warns + 1⟩ := by
  rw [nextCandidatesLoop, if_neg hx, if_pos hAdd, if_pos hshort]

theorem nextCandidatesLoop_add_cont (A : BayesianOptimizationAlgorithm α μ)
    (ni rem : Nat) (just : Bool) (model : Option μ) (excl : ExclusionList α)
    (pending candidates : List α) (calls warns : Nat)
    (hx : ¬(just = true ∧ excl.config_space_exhausted = true))
    (hAdd : 0 < rem ∧ get_next_candidates A ni model excl ≠ [])
    (hshort : ¬((get_next_candidates A ni model excl).length < ni ∧
      (candidates ++ get_next_candidates A ni model excl).length <
        A.num_requested_candidates)) :
    nextCandidatesLoop A ni (rem + 1) just model excl pending candidates calls
      warns =
      nextCandidatesLoop A ni rem true
        (A.pending_candidate_state_transformer.map
          (fun t => t (pending ++ get_next_candidates A ni model excl) true))
        ((get_next_candidates A ni model excl).foldl ExclusionList.add excl)
        (pending ++ get_next_candidates A ni model excl)
        (candidates ++ get_next_candidates A ni model excl)
        (calls + 1) warns := by
  rw [nextCandidatesLoop, if_neg hx, if_pos hAdd, if_neg hshort]

theorem nextCandidatesLoop_noadd_break (A : BayesianOptimizationAlgorithm α μ)
    (ni rem : Nat) (just : Bool) (model : Option μ) (excl : ExclusionList α)
    (pending candidates : List α) (calls warns : Nat)
    (hx : ¬(just = true ∧ excl.config_space_exhausted = true))
    (hAdd : ¬(0 < rem ∧ get_next_candidates A ni model excl ≠ []))
    (hshort : (get_next_candidates A ni model excl).length < ni ∧
      (candidates ++ get_next_candidates A ni model excl).length <
        A.num_requested_candidates) :
    nextCandidatesLoop A ni (rem + 1) just model excl pending candidates calls
      warns =
      ⟨candidates ++ get_next_candidates A ni model excl,
       excl, pending, model, calls + 1, warns + 1⟩ := by
  rw [nextCandidatesLoop, if_neg hx, if_neg hAdd, if_pos hshort]

theorem nextCandidatesLoop_noadd_cont (A : BayesianOptimizationAlgorithm α μ)
    (ni rem : Nat) (just : Bool) (model : Option μ) (excl : ExclusionList α)
    (pending candidates : List α) (calls warns : Nat)
    (hx : ¬(just = true ∧ excl.config_space_exhausted = true))
    (hAdd : ¬(0 < rem ∧ get_next_candidates A ni model excl ≠ []))
    (hshort : ¬((get_next_candidates A ni model excl).length < ni ∧
      (candidates ++ get_next_candidates A ni model excl).length <
        A.num_requested_candidates)) :
    nextCandidatesLoop A ni (rem + 1) just model excl pending candidates calls
      warns =
      nextCandidatesLoop A ni rem false model excl pending
        (candidates ++ get_next_candidates A ni model excl)
        (calls + 1) warns := by
  rw [nextCandidatesLoop, if_neg hx, if_neg hAdd, if_neg hshort]

/-- Outer-loop invariant: under a detector that performs detection, and
entering with a duplicate-free accumulator all of whose entries are recorded
in the current exclusion registry, the loop's final candidate list is
duplicate-free and extends the accumulator only by configurations outside
the current registry. -/
theorem nextCandidatesLoop_nodup_fresh (A : BayesianOptimizationAlgorithm α μ)
    (hdet : DetectsMembership A.duplicate_detector) (ni : Nat) :
    ∀ (rem : Nat) (just : Bool) (model : Option μ) (excl : ExclusionList α)
      (pending candidates : List α) (calls warns : Nat),
      candidates.Nodup → (∀ a ∈ candidates, excl.containsc a = true) →
      (nextCandidatesLoop A ni rem just model excl pending candidates calls
        warns).candidates.Nodup ∧
      ∀ c ∈ (nextCandidatesLoop A ni rem just model excl pending candidates
        calls warns).candidates, c ∈ candidates ∨ excl.containsc c = false := by
  intro rem
  induction rem with
  | zero =>
      intro just model excl pending candidates calls warns hnd hrec
      rw [nextCandidatesLoop_zero]
      exact ⟨hnd, fun c hc => Or.inl hc⟩
  | succ rem ih =>
      intro just model excl pending candidates calls warns hnd hrec
      by_cases hx : just = true ∧ excl.config_space_exhausted = true
      · rw [nextCandidatesLoop_exhausted A ni rem just model excl pending
          candidates calls warns hx]
        exact ⟨hnd, fun c hc => Or.inl hc⟩
      · obtain ⟨hind, hifr⟩ := get_next_candidates_nodup_fresh A hdet ni
          model excl
        have hnd2 : (candidates ++ get_next_candidates A ni model excl).Nodup := by
          rw [List.nodup_append]
          refine ⟨hnd, hind, fun a ha hb => ?_⟩
          have h2 := hifr a hb
          rw [hrec a ha] at h2
          cases h2
        have hext : ∀ c ∈ candidates ++ get_next_candidates A ni model excl,
            c ∈ candidates ∨ excl.containsc c = false := by
          intro c hc
          rcases List.mem_append.mp hc with hc | hc
          · exact Or.inl hc
          · exact Or.inr (hifr c hc)
        by_cases hAdd : 0 < rem ∧ get_next_candidates A ni model excl ≠ []
        · by_cases hshort : (get_next_candidates A ni model excl).length < ni ∧
            (candidates ++ get_next_candidates A ni model excl).length <
              A.num_requested_candidates
          · rw [nextCandidatesLoop_add_break A ni rem just model excl pending
              candidates calls warns hx hAdd hshort]
            exact ⟨hnd2, hext⟩
          · rw [nextCandidatesLoop_add_cont A ni rem just model excl pending
              candidates calls warns hx hAdd hshort]
            have hrec2 : ∀ a ∈ candidates ++ get_next_candidates A ni model excl,
                ((get_next_candidates A ni model excl).foldl ExclusionList.add
                  excl).containsc a = true := by
              intro a ha
              rcases List.mem_append.mp ha with ha | ha
              · exact ExclusionList.containsc_foldl_add_mono _ _ _ (hrec a ha)
              · exact ExclusionList.containsc_foldl_add_of_mem _ _ _ ha
            obtain ⟨h1, h2⟩ := ih true
              (A.pending_candidate_state_transformer.map
                (fun t => t (pending ++ get_next_candidates A ni model excl) true))
              ((get_next_candidates A ni model excl).foldl ExclusionList.add excl)
              (pending ++ get_next_candidates A ni model excl)
              (candidates ++ get_next_candidates A ni model excl)
              (calls + 1) warns hnd2 hrec2
            refine ⟨h1, fun c hc => ?_⟩
            rcases h2 c hc with hc2 | hc2
            · exact hext c hc2
            · refine Or.inr ?_
              cases hc3 : excl.containsc c with
              | false => rfl
              | true =>
                  rw [ExclusionList.containsc_foldl_add_mono _ _ _ hc3] at hc2
                  cases hc2
        · by_cases hshort : (get_next_candidates A ni model excl).length < ni ∧
            (candidates ++ get_next_candidates A ni model excl).length <
              A.num_requested_candidates
          · rw [nextCandidatesLoop_noadd_break A ni rem just model excl pending
              candidates calls warns hx hAdd hshort]
            exact ⟨hnd2, hext⟩
          · rw [nextCandidatesLoop_noadd_cont A ni rem just model excl pending
              candidates calls warns hx hAdd hshort]
            rcases Nat.eq_zero_or_pos rem with hrem | hrem
            · subst hrem
              rw [nextCandidatesLoop_zero]
              exact ⟨hnd2, hext⟩
            · have hinner : get_next_candidates A ni model excl = [] := by
                by_contra hne
                exact hAdd ⟨hrem, hne⟩
              rw [hinner, List.append_nil]
              exact ih false model excl pending candidates (calls + 1) warns
                hnd hrec

/-- Outer-loop length bound: each of the at most `rem` iterations
contributes at most `ni` candidates (for a positive inner request). -/
theorem nextCandidatesLoop_length (A : BayesianOptimizationAlgorithm α μ)
    {ni : Nat} (hni : 0 < ni) :
    ∀ (rem : Nat) (just : Bool) (model : Option μ) (excl : ExclusionList α)
      (pending candidates : List α) (calls warns : Nat),
      (nextCandidatesLoop A ni rem just model excl pending candidates calls
        warns).candidates.length ≤ candidates.length + rem * ni := by
  intro rem
  induction rem with
  | zero =>
      intro just model excl pending candidates calls warns
      rw [nextCandidatesLoop_zero]
      simp
  | succ rem ih =>
      intro just model excl pending candidates calls warns
      have hinner : (get_next_candidates A ni model excl).length ≤ ni :=
        get_next_candidates_length A model excl hni
      by_cases hx : just = true ∧ excl.config_space_exhausted = true
      · rw [nextCandidatesLoop_exhausted A ni rem just model excl pending
          candidates calls warns hx]
        exact Nat.le_add_right _ _
      · by_cases hAdd : 0 < rem ∧ get_next_candidates A ni model excl ≠ []
        · by_cases hshort : (get_next_candidates A ni model excl).length < ni ∧
            (candidates ++ get_next_candidates A ni model excl).length <
              A.num_requested_candidates
          · rw [nextCandidatesLoop_add_break A ni rem just model excl pending
              candidates calls warns hx hAdd hshort]
            rw [List.length_append]
            have : ni ≤ (rem + 1) * ni := Nat.le_mul_of_pos_left ni
              (Nat.succ_pos rem)
            omega
          · rw [nextCandidatesLoop_add_cont A ni rem just model excl pending
              candidates calls warns hx hAdd hshort]
            have h2 := ih true
              (A.pending_candidate_state_transformer.map
                (fun t => t (pending ++ get_next_candidates A ni model excl)
                  true))
              ((get_next_candidates A ni model excl).foldl ExclusionList.add
                excl)
              (pending ++ get_next_candidates A ni model excl)
              (candidates ++ get_next_candidates A ni model excl)
              (calls + 1) warns
            refine Nat.le_trans h2 ?_
            clear h2
            rw [List.length_append, Nat.succ_mul]
            omega
        · by_cases hshort : (get_next_candidates A ni model excl).length < ni ∧
            (candidates ++ get_next_candidates A ni model excl).length <
              A.num_requested_candidates
          · rw [nextCandidatesLoop_noadd_break A ni rem just model excl
              pending candidates calls warns hx hAdd hshort]
            rw [List.length_append]
            have : ni ≤ (rem + 1) * ni := Nat.le_mul_of_pos_left ni
              (Nat.succ_pos rem)
            omega
          · rw [nextCandidatesLoop_noadd_cont A ni rem just model excl pending
              candidates calls warns hx hAdd hshort]
            have h2 := ih false model excl pending
              (candidates ++ get_next_candidates A ni model excl)
              (calls + 1) warns
            refine Nat.le_trans h2 ?_
            clear h2
            rw [List.length_append, Nat.succ_mul]
            omega

/-- Outer-loop shape invariant: the loop extends the transformer's pending
list by some block `newly` of candidates (in order), adds exactly that block
to the exclusion registry, and its candidate output is the accumulator
followed by `newly` followed by a final block `tail` of at most `ni`
candidates — `tail` being the picks of the last executed iteration, which
the source records in neither the registry nor the transformer. -/
theorem nextCandidatesLoop_shape (A : BayesianOptimizationAlgorithm α μ)
    {ni : Nat} (hni : 0 < ni) :
    ∀ (rem : Nat) (just : Bool) (model : Option μ) (excl : ExclusionList α)
      (pending candidates : List α) (calls warns : Nat),
      ∃ newly tail,
        (nextCandidatesLoop A ni rem just model excl pending candidates calls
          warns).pending = pending ++ newly ∧
        (nextCandidatesLoop A ni rem just model excl pending candidates calls
          warns).exclusion = newly.foldl ExclusionList.add excl ∧
        (nextCandidatesLoop A ni rem just model excl pending candidates calls
          warns).candidates = candidates ++ newly ++ tail ∧
        tail.length ≤ ni := by
  intro rem
  induction rem with
  | zero =>
      intro just model excl pending candidates calls warns
      refine ⟨[], [], ?_, ?_, ?_, ?_⟩ <;>
        simp [nextCandidatesLoop_zero]
  | succ rem ih =>
      intro just model excl pending candidates calls warns
      by_cases hx : just = true ∧ excl.config_space_exhausted = true
      · refine ⟨[], [], ?_, ?_, ?_, ?_⟩ <;>
          simp [nextCandidatesLoop_exhausted A ni rem just model excl pending
            candidates calls warns hx]
      · by_cases hAdd : 0 < rem ∧ get_next_candidates A ni model excl ≠ []
        · by_cases hshort : (get_next_candidates A ni model excl).length < ni ∧
            (candidates ++ get_next_candidates A ni model excl).length <
              A.num_requested_candidates
          · refine ⟨get_next_candidates A ni model excl, [], ?_, ?_, ?_, ?_⟩ <;>
              simp [nextCandidatesLoop_add_break A ni rem just model excl
                pending candidates calls warns hx hAdd hshort]
          · rw [nextCandidatesLoop_add_cont A ni rem just model excl pending
              candidates calls warns hx hAdd hshort]
            obtain ⟨n2, t2, h1, h2, h3, h4⟩ := ih true
              (A.pending_candidate_state_transformer.map
                (fun t => t (pending ++ get_next_candidates A ni model excl)
                  true))
              ((get_next_candidates A ni model excl).foldl ExclusionList.add
                excl)
              (pending ++ get_next_candidates A ni model excl)
              (candidates ++ get_next_candidates A ni model excl)
              (calls + 1) warns
            refine ⟨get_next_candidates A ni model excl ++ n2, t2, ?_, ?_, ?_, h4⟩
            · rw [h1, List.append_assoc]
            · rw [h2, List.foldl_append]
            · rw [h3]
              simp [List.append_assoc]
        · by_cases hshort : (get_next_candidates A ni model excl).length < ni ∧
            (candidates ++ get_next_candidates A ni model excl).length <
              A.num_requested_candidates
          · refine ⟨[], get_next_candidates A ni model excl, ?_, ?_, ?_, ?_⟩ <;>
              simp [nextCandidatesLoop_noadd_break A ni rem just model excl
                pending candidates calls warns hx hAdd hshort,
                Nat.le_of_lt hshort.1]
          · rw [nextCandidatesLoop_noadd_cont A ni rem just model excl pending
              candidates calls warns hx hAdd hshort]
            rcases Nat.eq_zero_or_pos rem with hrem | hrem
            · subst hrem
              refine ⟨[], get_next_candidates A ni model excl, ?_, ?_, ?_, ?_⟩ <;>
                simp [nextCandidatesLoop_zero,
                  get_next_candidates_length A model excl hni]
            · have hinner : get_next_candidates A ni model excl = [] := by
                by_contra hne
                exact hAdd ⟨hrem, hne⟩
              rw [hinner, List.append_nil]
              exact ih false model excl pending candidates (calls + 1) warns

/-- Outer-loop model invariant: the surrogate model threaded through the
loop is `None` until the first batch of picks is appended to the state
transformer, and afterwards the transformer's `model(skip_optimization=True)`
over exactly the pending candidates appended so far. -/
theorem nextCandidatesLoop_model (A : BayesianOptimizationAlgorithm α μ)
    (ni : Nat) :
    ∀ (rem : Nat) (just : Bool) (model : Option μ) (excl : ExclusionList α)
      (pending candidates : List α) (calls warns : Nat),
      model = (if pending.isEmpty then none
        else A.pending_candidate_state_transformer.map
          (fun t => t pending true)) →
      (nextCandidatesLoop A ni rem just model excl pending candidates calls
        warns).modelState =
      (if (nextCandidatesLoop A ni rem just model excl pending candidates
          calls warns).pending.isEmpty then none
        else A.pending_candidate_state_transformer.map
          (fun t => t (nextCandidatesLoop A ni rem just model excl pending
            candidates calls warns).pending true)) := by
  intro rem
  induction rem with
  | zero =>
      intro just model excl pending candidates calls warns hm
      rw [nextCandidatesLoop_zero]
      exact hm
  | succ rem ih =>
      intro just model excl pending candidates calls warns hm
      by_cases hx : just = true ∧ excl.config_space_exhausted = true
      · rw [nextCandidatesLoop_exhausted A ni rem just model excl pending
          candidates calls warns hx]
        exact hm
      · by_cases hAdd : 0 < rem ∧ get_next_candidates A ni model excl ≠ []
        · have hpe : (pending ++ get_next_candidates A ni model excl).isEmpty
              = false := by
            simp [List.isEmpty_iff, hAdd.2]
          by_cases hshort : (get_next_candidates A ni model excl).length < ni ∧
            (candidates ++ get_next_candidates A ni model excl).length <
              A.num_requested_candidates
          · rw [nextCandidatesLoop_add_break A ni rem just model excl pending
              candidates calls warns hx hAdd hshort]
            simp [hpe]
          · rw [nextCandidatesLoop_add_cont A ni rem just model excl pending
              candidates calls warns hx hAdd hshort]
            refine ih true _ _ _ _ _ _ ?_
            simp [hpe]
        · by_cases hshort : (get_next_candidates A ni model excl).length < ni ∧
            (candidates ++ get_next_candidates A ni model excl).length <
              A.num_requested_candidates
          · rw [nextCandidatesLoop_noadd_break A ni rem just model excl
              pending candidates calls warns hx hAdd hshort]
            exact hm
          · rw [nextCandidatesLoop_noadd_cont A ni rem just model excl pending
              candidates calls warns hx hAdd hshort]
            exact ih false model excl pending _ (calls + 1) warns hm

/-- The loop executes at most `rem` iterations, each making one inner
`_get_next_candidates` call. -/
theorem nextCandidatesLoop_calls (A : BayesianOptimizationAlgorithm α μ)
    (ni : Nat) :
    ∀ (rem : Nat) (just : Bool) (model : Option μ) (excl : ExclusionList α)
      (pending candidates : List α) (calls warns : Nat),
      (nextCandidatesLoop A ni rem just model excl pending candidates calls
        warns).innerCalls ≤ calls + rem := by
  intro rem
  induction rem with
  | zero =>
      intro just model excl pending candidates calls warns
      rw [nextCandidatesLoop_zero]
      exact Nat.le_refl _
  | succ rem ih =>
      intro just model excl pending candidates calls warns
      by_cases hx : just = true ∧ excl.config_space_exhausted = true
      · rw [nextCandidatesLoop_exhausted A ni rem just model excl pending
          candidates calls warns hx]
        show calls ≤ calls + (rem + 1)
        omega
      · by_cases hAdd : 0 < rem ∧ get_next_candidates A ni model excl ≠ []
        · by_cases hshort : (get_next_candidates A ni model excl).length < ni ∧
            (candidates ++ get_next_candidates A ni model excl).length <
              A.num_requested_candidates
          · rw [nextCandidatesLoop_add_break A ni rem just model excl pending
              candidates calls warns hx hAdd hshort]
            show calls + 1 ≤ calls + (rem + 1)
            omega
          · rw [nextCandidatesLoop_add_cont A ni rem just model excl pending
              candidates calls warns hx hAdd hshort]
            have h2 := ih true
              (A.pending_candidate_state_transformer.map
                (fun t => t (pending ++ get_next_candidates A ni model excl)
                  true))
              ((get_next_candidates A ni model excl).foldl ExclusionList.add
                excl)
              (pending ++ get_next_candidates A ni model excl)
              (candidates ++ get_next_candidates A ni model excl)
              (calls + 1) warns
            exact Nat.le_trans h2 (by clear h2; omega)
        · by_cases hshort : (get_next_candidates A ni model excl).length < ni ∧
            (candidates ++ get_next_candidates A ni model excl).length <
              A.num_requested_candidates
          · rw [nextCandidatesLoop_noadd_break A ni rem just model excl
              pending candidates calls warns hx hAdd hshort]
            show calls + 1 ≤ calls + (rem + 1)
            omega
          · rw [nextCandidatesLoop_noadd_cont A ni rem just model excl pending
              candidates calls warns hx hAdd hshort]
            have h2 := ih false model excl pending
              (candidates ++ get_next_candidates A ni model excl)
              (calls + 1) warns
            exact Nat.le_trans h2 (by clear h2; omega)

/-! ### Lemmas about the lazy local-refinement producer -/

/-- Generalized invariant for `_lazily_locally_optimize`: from any
`considered_already` state, the yielded pairs have pairwise distinct
originals, none of which was considered already, each refined component is
the local optimization of its original, and each original comes from the
input list. -/
theorem lazily_locally_optimize_invariant (local_optimizer : α → Option μ → α)
    (model : Option μ) :
    ∀ (cands : List α) (seen : ExclusionList α),
      ((lazily_locally_optimize local_optimizer model cands seen).map
        Prod.fst).Nodup ∧
      ∀ p ∈ lazily_locally_optimize local_optimizer model cands seen,
        seen.containsc p.1 = false ∧ p.2 = local_optimizer p.1 model ∧
          p.1 ∈ cands := by
  intro cands
  induction cands with
  | nil =>
      intro seen
      exact ⟨List.nodup_nil, fun p hp => by cases hp⟩
  | cons c rest ih =>
      intro seen
      by_cases hc : seen.containsc c = true
      · rw [lazily_locally_optimize, if_pos hc]
        obtain ⟨h1, h2⟩ := ih seen
        refine ⟨h1, fun p hp => ?_⟩
        obtain ⟨ha, hb, hm⟩ := h2 p hp
        exact ⟨ha, hb, List.mem_cons_of_mem c hm⟩
      · rw [lazily_locally_optimize, if_neg hc]
        obtain ⟨h1, h2⟩ := ih (seen.add c)
        have hcf : seen.containsc c = false := by
          cases h : seen.containsc c with
          | false => rfl
          | true => exact absurd h hc
        constructor
        · rw [List.map_cons, List.nodup_cons]
          refine ⟨fun hmem => ?_, h1⟩
          rcases List.mem_map.mp hmem with ⟨p, hp, hfst⟩
          obtain ⟨ha, _, _⟩ := h2 p hp
          rw [hfst, ExclusionList.containsc_add_self seen c] at ha
          cases ha
        · intro p hp
          rcases List.mem_cons.mp hp with rfl | hp
          · exact ⟨hcf, rfl, List.mem_cons_self c rest⟩
          · obtain ⟨ha, hb, hm⟩ := h2 p hp
            exact ⟨containsc_false_of_add_false ha, hb,
              List.mem_cons_of_mem c hm⟩

/-! ### Inversion lemmas for next_candidates -/

theorem next_candidates_eq_ok {A : BayesianOptimizationAlgorithm α μ}
    {out : NextResult α μ} (h : next_candidates A = Except.ok out) :
    out = nextCandidatesLoop A (numInnerCandidates A) (numOuterIterations A)
      true none A.exclusion_candidates [] [] 0 0 := by
  unfold next_candidates at h
  split at h
  · cases h
  · cases h
    rfl

theorem next_candidates_error_iff (A : BayesianOptimizationAlgorithm α μ) :
    (∃ msg, next_candidates A = Except.error msg) ↔
      (numOuterIterations A ≠ 1 ∧
        A.pending_candidate_state_transformer.isNone = true) := by
  unfold next_candidates
  split
  · rename_i hcond
    exact ⟨fun _ => hcond, fun _ => ⟨_, rfl⟩⟩
  · rename_i hcond
    refine ⟨fun ⟨msg, hmsg⟩ => ?_, fun hc => absurd hc hcond⟩
    cases hmsg

/-- A single outer iteration (the batch-at-once case) leaves both the
exclusion registry and the transformer's pending list untouched. -/
theorem nextCandidatesLoop_one_frame (A : BayesianOptimizationAlgorithm α μ)
    (ni : Nat) (just : Bool) (model : Option μ) (excl : ExclusionList α)
    (pending candidates : List α) (calls warns : Nat) :
    (nextCandidatesLoop A ni 1 just model excl pending candidates calls
      warns).exclusion = excl ∧
    (nextCandidatesLoop A ni 1 just model excl pending candidates calls
      warns).pending = pending := by
  by_cases hx : just = true ∧ excl.config_space_exhausted = true
  · rw [nextCandidatesLoop_exhausted A ni 0 just model excl pending
      candidates calls warns hx]
    exact ⟨rfl, rfl⟩
  · have hAdd : ¬(0 < 0 ∧ get_next_candidates A ni model excl ≠ []) := by
      intro hcontra
      exact absurd hcontra.1 (Nat.lt_irrefl 0)
    by_cases hshort : (get_next_candidates A ni model excl).length < ni ∧
      (candidates ++ get_next_candidates A ni model excl).length <
        A.num_requested_candidates
    · rw [nextCandidatesLoop_noadd_break A ni 0 just model excl pending
        candidates calls warns hx hAdd hshort]
      exact ⟨rfl, rfl⟩
    · rw [nextCandidatesLoop_noadd_cont A ni 0 just model excl pending
        candidates calls warns hx hAdd hshort, nextCandidatesLoop_zero]
      exact ⟨rfl, rfl⟩

/-! ### Hyperband max_t inference (modelled from the spec) -/

/-- A declared field of a configuration space, as far as `max_t` inference
is concerned: either a constant integer value or a proper hyperparameter
domain (e.g. `randint(a, b)`). -/
inductive SpaceValue where
  | const (n : Nat)
  | domain
deriving DecidableEq

/-- The constant integer value of field `key`, if the field is present and
constant. -/
def constValue (config_space : List (String × SpaceValue)) (key : String) :
    Option Nat :=
  match config_space.lookup key with
  | some (SpaceValue.const n) => some n
  | _ => none

/-- Modelled from the spec: the `max_t` configuration of
`HyperbandScheduler` (`schedulers/hyperband.py`, a file not under `src/`;
only its test `tst/test_schedulers.py::test_hyperband_max_t_inference` is).
Per the spec, `max_t` is the explicit argument when given; otherwise it is
inferred from the configuration space's declared epoch/step bounds —
constant fields `epochs`, `max_t`, `max_epochs`, in that priority order, as
fixed by the spec's examples (`{epochs: 15, max_t: 14, max_epochs: 13}`
infers 15, `{max_epochs: 13}` infers 13) — and construction fails with a
configuration error when none is given and no qualifying field exists. -/
def hyperband_infer_max_t (config_space : List (String × SpaceValue))
    (max_t_arg : Option Nat) : Except String Nat :=
  match max_t_arg with
  | some t => Except.ok t
  | none =>
    match constValue config_space "epochs" with
    | some n => Except.ok n
    | none =>
      match constValue config_space "max_t" with
      | some n => Except.ok n
      | none =>
        match constValue config_space "max_epochs" with
        | some n => Except.ok n
        | none => Except.error
            "max_t neither given as argument nor inferrable from the configuration space"

/-! ### The constrained searcher's update (ConstrainedGPFIFOSearcher._update) -/

/-- Modelled from the spec: the internal name under which the constraint
metric is recorded (`INTERNAL_CONSTRAINT_NAME` from `datatypes/common.py`,
not under `src/`; its exact value is immaterial here). -/
def INTERNAL_CONSTRAINT_NAME : String := "constraint_metric"

/-- A `(configuration, metrics)` pair used to update the searcher's model
(spec: append-only `CandidateEvaluation`). -/
structure CandidateEvaluation (α ν : Type) where
  candidate : α
  metrics : List (String × ν)

/-- Modelled from the spec: `state_transformer.label_candidate` records an
evaluation; `CandidateEvaluation` records are append-only. -/
def label_candidate (labeled : List (CandidateEvaluation α ν))
    (ev : CandidateEvaluation α ν) : List (CandidateEvaluation α ν) :=
  labeled ++ [ev]

/-- Model of `ConstrainedGPFIFOSearcher._update` of
`constrained_gp_fifo_searcher.py`.  A reported result is a mapping from
metric names to values, embedded as an association list with values of an
abstract numeric type `ν` (Python's `float(...)` conversion is the identity
on the reported numeric value); `self._constraint_attr in result` is the
lookup, and the failing `assert` is an `AssertionError` carrying the
message below.  The superclass `_update` (from
`cost_aware_gp_fifo_searcher.py`, which records the primary metric and runs
first) is an abstract collaborator `superUpdate` acting on the searcher's
list of labeled evaluations. -/
def constrained_searcher_update
    (superUpdate : α → List (String × ν) → List (CandidateEvaluation α ν) →
      List (CandidateEvaluation α ν))
    (constraint_attr : String) (config : α) (result : List (String × ν))
    (labeled : List (CandidateEvaluation α ν)) :
    Except String (List (CandidateEvaluation α ν)) :=
  let labeled1 := superUpdate config result labeled
  match result.lookup constraint_attr with
  | none => Except.error ("Constraint metric " ++ constraint_attr ++
      " not included in reported result. Make sure your evaluation function reports it.")
  | some constr_val => Except.ok (label_candidate labeled1
      ⟨config, [(INTERNAL_CONSTRAINT_NAME, constr_val)]⟩)

/-! ### Concrete instances used to evaluate the algorithm -/

/-- A concrete candidate generator over `Nat` configurations: the first
`n` configurations of the space `{0, …, 49}` not in the exclusion list (the
source's generator never returns excluded candidates). -/
def natGen (n : Nat) (excl : ExclusionList Nat) : List Nat :=
  ((List.range 50).filter (fun c => excl.containsc c = false)).take n

/-- A constant scoring function (every candidate scores 0). -/
def zeroScorer : List Nat → Option Nat → List Int :=
  fun candidates _ => candidates.map (fun _ => 0)

/-- A local optimizer that keeps the candidate unchanged. -/
def identityOptimizer : Nat → Option Nat → Nat := fun c _ => c

/-- The exact-match duplicate detector (`DuplicateDetectorIdentical`). -/
def memberDetector : DuplicateDetector Nat := fun e c => e.containsc c

/-- A concrete state transformer: the model is the number of pending
candidates appended so far. -/
def lengthTransformer : List Nat → Bool → Nat := fun pending _ => pending.length

/-- Greedy selection of a batch of 2 from the 10-element space, empty
registry. -/
def baseAlgorithm : BayesianOptimizationAlgorithm Nat Nat := {
  initial_candidates_generator := natGen
  initial_candidates_scorer := zeroScorer
  num_initial_candidates := 3
  local_optimizer := identityOptimizer
  pending_candidate_state_transformer := some lengthTransformer
  exclusion_candidates := ⟨[], some 10⟩
  num_requested_candidates := 2
  greedy_batch_selection := true
  duplicate_detector := memberDetector
  sample_unique_candidates := false }

/-- Batch-at-once mode with zero requested candidates. -/
def algRequestZero : BayesianOptimizationAlgorithm Nat Nat :=
  { baseAlgorithm with
    greedy_batch_selection := false
    num_requested_candidates := 0
    pending_candidate_state_transformer := none }

/-- Batch-at-once mode requesting 2 candidates but generating only 1
initial candidate, with the space far from exhausted. -/
def algShortGeneration : BayesianOptimizationAlgorithm Nat Nat :=
  { baseAlgorithm with
    greedy_batch_selection := false
    num_initial_candidates := 1
    pending_candidate_state_transformer := none }

/-- Batch-at-once mode requesting 2 candidates from 3 initial ones. -/
def algBatchTwo : BayesianOptimizationAlgorithm Nat Nat :=
  { baseAlgorithm with
    greedy_batch_selection := false
    pending_candidate_state_transformer := none }

/-- Greedy mode without a state transformer but with a single requested
candidate (a single outer iteration). -/
def algGreedyNoTransformerOne : BayesianOptimizationAlgorithm Nat Nat :=
  { baseAlgorithm with
    num_requested_candidates := 1
    pending_candidate_state_transformer := none }

/-- Greedy mode on a registry that has exhausted its 2-element space. -/
def algExhausted : BayesianOptimizationAlgorithm Nat Nat :=
  { baseAlgorithm with exclusion_candidates := ⟨[7, 8], some 2⟩ }

/-- Greedy mode, exhausted space, and no state transformer. -/
def algExhaustedNoTransformer : BayesianOptimizationAlgorithm Nat Nat :=
  { baseAlgorithm with
    exclusion_candidates := ⟨[7, 8], some 2⟩
    pending_candidate_state_transformer := none }

/-- Greedy mode, exhausted space, zero requested candidates. -/
def algExhaustedZeroRequest : BayesianOptimizationAlgorithm Nat Nat :=
  { baseAlgorithm with
    exclusion_candidates := ⟨[7, 8], some 2⟩
    num_requested_candidates := 0 }

/-! ### Claim theorems -/

/-- Claim C1 (confirmed): for every call to the Bayesian-optimization
searcher's `next_candidates` with a duplicate detector that performs
detection, no configuration in the returned list is contained in the
exclusion registry as it stood at call time, and no two entries of the
returned list are equal to each other. -/
theorem next_candidates_excludes_registry_and_nodup
    (A : BayesianOptimizationAlgorithm α μ)
    (hdet : DetectsMembership A.duplicate_detector)
    (out : NextResult α μ) (hok : next_candidates A = Except.ok out) :
    out.candidates.Nodup ∧
      ∀ c ∈ out.candidates, A.exclusion_candidates.containsc c = false := by
  rw [next_candidates_eq_ok hok]
  obtain ⟨h1, h2⟩ := nextCandidatesLoop_nodup_fresh A hdet
    (numInnerCandidates A) (numOuterIterations A) true none
    A.exclusion_candidates [] [] 0 0 List.nodup_nil
    (by intro a ha; cases ha)
  refine ⟨h1, fun c hc => ?_⟩
  rcases h2 c hc with hc2 | hc2
  · cases hc2
  · exact hc2

theorem next_candidates_excludes_registry_and_nodup_witness :
    ∃ out, next_candidates baseAlgorithm = Except.ok out ∧
      out.candidates.Nodup ∧
      ∀ c ∈ out.candidates,
        baseAlgorithm.exclusion_candidates.containsc c = false :=
  ⟨⟨[0, 1], ⟨[0], some 10⟩, [0], some 1, 2, 0⟩, rfl,
    next_candidates_excludes_registry_and_nodup baseAlgorithm
      (fun _ _ h => h) _ rfl⟩

/-- Claim C2 (corrected), counterexample to the claim as stated: for
`num_requested_candidates = 0` in batch-at-once mode the returned list is
longer than requested (the source's stop check `len(result) ==
num_candidates` runs only after an insertion, so a request of zero consumes
the whole stream); and a request of 2 with a single generated initial
candidate returns 1 < 2 candidates while the 10-element space is far from
exhausted. -/
theorem next_candidates_length_bound_cex :
    (∃ out, next_candidates algRequestZero = Except.ok out ∧
      algRequestZero.num_requested_candidates < out.candidates.length) ∧
    (∃ out, next_candidates algShortGeneration = Except.ok out ∧
      out.candidates.length < algShortGeneration.num_requested_candidates ∧
      algShortGeneration.exclusion_candidates.config_space_exhausted =
        false) :=
  ⟨⟨⟨[0, 1, 2], ⟨[], some 10⟩, [], none, 1, 0⟩, rfl, by decide⟩,
    ⟨⟨[0], ⟨[], some 10⟩, [], none, 1, 1⟩, rfl, by decide, by decide⟩⟩

/-- Claim C2 (corrected), the amended claim: whenever at least one candidate
is requested, `next_candidates` returns at most `num_requested_candidates`
candidates (it may return fewer also when the space is not exhausted, e.g.
when fewer acceptable candidates are generated than requested). -/
theorem next_candidates_length_le_requested
    (A : BayesianOptimizationAlgorithm α μ)
    (hreq : 1 ≤ A.num_requested_candidates)
    (out : NextResult α μ) (hok : next_candidates A = Except.ok out) :
    out.candidates.length ≤ A.num_requested_candidates := by
  have hni : 0 < numInnerCandidates A := by
    unfold numInnerCandidates
    cases A.greedy_batch_selection <;> simp
    omega
  rw [next_candidates_eq_ok hok]
  refine Nat.le_trans (nextCandidatesLoop_length A hni (numOuterIterations A)
    true none A.exclusion_candidates [] [] 0 0) ?_
  unfold numOuterIterations numInnerCandidates
  cases A.greedy_batch_selection <;> simp

theorem next_candidates_length_le_requested_witness :
    ∃ out, next_candidates baseAlgorithm = Except.ok out ∧
      out.candidates.length ≤ baseAlgorithm.num_requested_candidates :=
  ⟨⟨[0, 1], ⟨[0], some 10⟩, [0], some 1, 2, 0⟩, rfl,
    next_candidates_length_le_requested baseAlgorithm (by decide) _ rfl⟩

/-- Claim C3 (corrected), counterexample to the claim as stated: with 0
requested candidates the final selection does not stop before consuming the
stream — it accepts the fresh pair and returns one candidate where the
claimed "stop as soon as the requested number is accepted" demands an empty
result (the source checks the stop condition only after an insertion). -/
theorem pick_zero_requested_cex :
    pick_from_locally_optimized [(1, 1)] (⟨[], some 5⟩ : ExclusionList Nat) 0
      memberDetector = [1] := rfl

/-- Claim C3 (corrected), the amended claim: whenever at least one candidate
is requested, the final selection is exactly the specification's acceptance
rule — accept the refined point unless it collides with an
already-selected/excluded configuration, fall back to the pre-refinement
original if only the refined point collides, skip the pair when both
collide, and stop as soon as the requested number is accepted or the stream
is exhausted; the selection is a total function, so a collision never
raises an error to the caller. -/
theorem pick_matches_acceptance_rule {dd : DuplicateDetector α}
    {num_candidates : Nat} (hpos : 1 ≤ num_candidates)
    (stream : List (α × α)) (excl : ExclusionList α) :
    pick_from_locally_optimized stream excl num_candidates dd =
      acceptance_rule_spec dd num_candidates stream excl.copy [] :=
  pickLoop_eq_acceptance_rule stream excl.copy [] (by simpa using hpos)

theorem pick_matches_acceptance_rule_witness :
    pick_from_locally_optimized [(1, 1), (2, 2)]
        (⟨[], some 5⟩ : ExclusionList Nat) 1 memberDetector =
      acceptance_rule_spec memberDetector 1 [(1, 1), (2, 2)]
        (ExclusionList.copy ⟨[], some 5⟩) [] :=
  pick_matches_acceptance_rule (by decide) [(1, 1), (2, 2)] ⟨[], some 5⟩

/-- Claim C4 (corrected), counterexample to the claim as stated: in greedy
mode with 2 requested candidates the second (last) pick `1` is neither
added to the exclusion registry nor appended to the state transformer after
its pick (the source updates only when `outer_iter <
num_outer_iterations - 1`); and greedy mode with `num_requested_candidates
= 1` succeeds without any state-transformer collaborator, so the call does
not fail without one. -/
theorem greedy_last_pick_cex :
    (∃ out, next_candidates baseAlgorithm = Except.ok out ∧
      out.candidates = [0, 1] ∧ out.exclusion.containsc 1 = false ∧
      out.pending = [0]) ∧
    (∃ out, next_candidates algGreedyNoTransformerOne = Except.ok out) :=
  ⟨⟨⟨[0, 1], ⟨[0], some 10⟩, [0], some 1, 2, 0⟩, rfl, rfl, by decide, rfl⟩,
    ⟨⟨[0], ⟨[], some 10⟩, [], none, 1, 0⟩, rfl⟩⟩

/-- Claim C4 (corrected), the amended claim, for at least one requested
candidate: the call fails exactly when greedy batch selection is on, the
request differs from 1, and no state transformer is given (so greedy mode
requires the transformer only for more than one outer iteration); on
success the candidates added to the exclusion registry are exactly those
appended to the state transformer's pending list — every pick except those
of the final iteration (at most `numInnerCandidates` trailing picks are
recorded in neither) — and the surrogate model threaded into the next pick
is the transformer's `model(skip_optimization=True)` over exactly the
pending candidates appended so far; at most `numOuterIterations` outer
iterations run, which is 1 unless greedy mode is on. -/
theorem greedy_batch_selection_spec (A : BayesianOptimizationAlgorithm α μ)
    (hreq : 1 ≤ A.num_requested_candidates) :
    ((∃ msg, next_candidates A = Except.error msg) ↔
      (A.greedy_batch_selection = true ∧ A.num_requested_candidates ≠ 1 ∧
        A.pending_candidate_state_transformer = none)) ∧
    ∀ out, next_candidates A = Except.ok out →
      out.exclusion = out.pending.foldl ExclusionList.add
        A.exclusion_candidates ∧
      (∃ tail, out.candidates = out.pending ++ tail ∧
        tail.length ≤ numInnerCandidates A) ∧
      out.modelState = (if out.pending.isEmpty then none
        else A.pending_candidate_state_transformer.map
          (fun t => t out.pending true)) ∧
      out.innerCalls ≤ numOuterIterations A := by
  constructor
  · rw [next_candidates_error_iff]
    constructor
    · rintro ⟨hn1, hnone⟩
      have hg : A.greedy_batch_selection = true := by
        cases hgc : A.greedy_batch_selection with
        | true => rfl
        | false =>
            exfalso
            apply hn1
            unfold numOuterIterations
            rw [if_neg (by simp [hgc])]
      refine ⟨hg, ?_, Option.isNone_iff_eq_none.mp hnone⟩
      intro h1
      apply hn1
      unfold numOuterIterations
      rw [if_pos hg]
      exact h1
    · rintro ⟨hg, hne, hnone⟩
      refine ⟨?_, by rw [hnone]; rfl⟩
      unfold numOuterIterations
      rw [if_pos hg]
      exact hne
  · intro out hok
    have hni : 0 < numInnerCandidates A := by
      unfold numInnerCandidates
      cases A.greedy_batch_selection <;> simp
      omega
    rw [next_candidates_eq_ok hok]
    obtain ⟨newly, tail, hp, he, hc, ht⟩ := nextCandidatesLoop_shape A hni
      (numOuterIterations A) true none A.exclusion_candidates [] [] 0 0
    rw [List.nil_append] at hp hc
    refine ⟨?_, ⟨tail, ?_, ht⟩, ?_, ?_⟩
    · rw [he, hp]
    · rw [hc, hp]
    · exact nextCandidatesLoop_model A (numInnerCandidates A)
        (numOuterIterations A) true none A.exclusion_candidates [] [] 0 0
        (by simp)
    · simpa using nextCandidatesLoop_calls A (numInnerCandidates A)
        (numOuterIterations A) true none A.exclusion_candidates [] [] 0 0

theorem greedy_batch_selection_spec_witness :
    ∃ out, next_candidates baseAlgorithm = Except.ok out ∧
      (out.exclusion = out.pending.foldl ExclusionList.add
        baseAlgorithm.exclusion_candidates ∧
      (∃ tail, out.candidates = out.pending ++ tail ∧
        tail.length ≤ numInnerCandidates baseAlgorithm) ∧
      out.modelState = (if out.pending.isEmpty then none
        else baseAlgorithm.pending_candidate_state_transformer.map
          (fun t => t out.pending true)) ∧
      out.innerCalls ≤ numOuterIterations baseAlgorithm) :=
  ⟨⟨[0, 1], ⟨[0], some 10⟩, [0], some 1, 2, 0⟩, rfl,
    (greedy_batch_selection_spec baseAlgorithm (by decide)).2 _ rfl⟩

/-- Claim C6 (corrected), counterexample to the claim as stated: on an
exhausted finite space, `next_candidates` in greedy mode with 2 requested
candidates and no state transformer still raises the assertion error (an
exception despite exhaustion); and in greedy mode with 0 requested
candidates it returns without logging any warning. -/
theorem exhausted_space_cex :
    (algExhaustedNoTransformer.exclusion_candidates.config_space_exhausted =
        true ∧
      next_candidates algExhaustedNoTransformer = Except.error
        "Need pending_candidate_state_transformer for greedy batch selection") ∧
    (algExhaustedZeroRequest.exclusion_candidates.config_space_exhausted =
        true ∧
      ∃ out, next_candidates algExhaustedZeroRequest = Except.ok out ∧
        out.warnings = 0) :=
  ⟨⟨by decide, rfl⟩,
    ⟨by decide, ⟨⟨[], ⟨[7, 8], some 2⟩, [], none, 0, 0⟩, rfl, rfl⟩⟩⟩

/-- Claim C6 (corrected), the amended claim: when the finite configuration
space is exhausted at call time and the greedy-mode transformer assertion
is satisfied, `next_candidates` is not an error: it returns an empty
candidate list, leaves the registry unchanged, and logs exactly one warning
whenever at least one outer iteration runs (greedy mode with a request of
zero runs none and logs none). -/
theorem exhausted_space_returns_empty_ok
    (A : BayesianOptimizationAlgorithm α μ)
    (hpre : ¬(numOuterIterations A ≠ 1 ∧
      A.pending_candidate_state_transformer.isNone = true))
    (hex : A.exclusion_candidates.config_space_exhausted = true) :
    ∃ out, next_candidates A = Except.ok out ∧ out.candidates = [] ∧
      out.exclusion = A.exclusion_candidates ∧
      out.warnings = (if numOuterIterations A = 0 then 0 else 1) := by
  unfold next_candidates
  rw [if_neg hpre]
  cases hn : numOuterIterations A with
  | zero =>
      refine ⟨_, rfl, ?_, ?_, ?_⟩ <;> simp [nextCandidatesLoop_zero]
  | succ n =>
      rw [nextCandidatesLoop_exhausted A (numInnerCandidates A) n true none
        A.exclusion_candidates [] [] 0 0 ⟨rfl, hex⟩]
      exact ⟨_, rfl, rfl, rfl, by simp⟩

theorem exhausted_space_returns_empty_ok_witness :
    ∃ out, next_candidates algExhausted = Except.ok out ∧
      out.candidates = [] ∧
      out.exclusion = algExhausted.exclusion_candidates ∧
      out.warnings = (if numOuterIterations algExhausted = 0 then 0 else 1) :=
  exhausted_space_returns_empty_ok algExhausted (by decide) (by decide)

/-- Claim C7 (confirmed, spec-modelled): Hyperband scheduler construction
without an explicit `max_t` argument infers `max_t` from the configuration
space — 15 from `{epochs: 15, max_t: 14, max_epochs: 13}`, 13 from
`{max_epochs: 13}`, and a configuration error when no qualifying field
exists. -/
theorem hyperband_max_t_inference :
    hyperband_infer_max_t
      [("epochs", SpaceValue.const 15), ("max_t", SpaceValue.const 14),
        ("max_epochs", SpaceValue.const 13), ("blurb", SpaceValue.domain)]
      none = Except.ok 15 ∧
    hyperband_infer_max_t
      [("max_epochs", SpaceValue.const 13), ("blurb", SpaceValue.domain)]
      none = Except.ok 13 ∧
    hyperband_infer_max_t [("blurb", SpaceValue.domain)] none = Except.error
      "max_t neither given as argument nor inferrable from the configuration space" :=
  ⟨rfl, rfl, rfl⟩

omit [DecidableEq α] in
/-- Claim C8 (confirmed): for every result reported to the constrained
searcher's update, a missing constraint-metric field fails immediately with
a descriptive error naming the missing field, and a present field has its
value recorded (appended as a `CandidateEvaluation` under the internal
constraint-metric name) — no silent defaulting in either case. -/
theorem constrained_update_spec
    (superUpdate : α → List (String × ν) → List (CandidateEvaluation α ν) →
      List (CandidateEvaluation α ν))
    (constraint_attr : String) (config : α) (result : List (String × ν))
    (labeled : List (CandidateEvaluation α ν)) :
    (result.lookup constraint_attr = none →
      constrained_searcher_update superUpdate constraint_attr config result
        labeled = Except.error ("Constraint metric " ++ constraint_attr ++
          " not included in reported result. Make sure your evaluation function reports it.")) ∧
    (∀ v, result.lookup constraint_attr = some v →
      constrained_searcher_update superUpdate constraint_attr config result
        labeled = Except.ok (label_candidate
          (superUpdate config result labeled)
          ⟨config, [(INTERNAL_CONSTRAINT_NAME, v)]⟩)) := by
  constructor
  · intro h
    unfold constrained_searcher_update
    rw [h]
  · intro v h
    unfold constrained_searcher_update
    rw [h]

theorem constrained_update_spec_witness :
    constrained_searcher_update (fun _ _ labeled => labeled) "my_constraint"
      (0 : Nat) [("objective", (3 : Int))] [] = Except.error
      ("Constraint metric " ++ "my_constraint" ++
        " not included in reported result. Make sure your evaluation function reports it.") ∧
    constrained_searcher_update (fun _ _ labeled => labeled) "my_constraint"
      (0 : Nat) [("objective", (3 : Int)), ("my_constraint", 7)] [] =
      Except.ok (label_candidate []
        ⟨0, [(INTERNAL_CONSTRAINT_NAME, (7 : Int))]⟩) :=
  ⟨(constrained_update_spec (fun _ _ labeled => labeled) "my_constraint" 0
      [("objective", 3)] []).1 rfl,
    (constrained_update_spec (fun _ _ labeled => labeled) "my_constraint" 0
      [("objective", 3), ("my_constraint", 7)] []).2 7 rfl⟩

/-- Claim C9 (confirmed): the lazy local-refinement producer deduplicates
its input before optimizing — starting from a fresh `considered_already`
list, each distinct configuration is optimized at most once, so the
originals in the produced `(original, refined)` pair stream are pairwise
distinct (and every pair refines an input candidate). -/
theorem lazily_locally_optimize_originals_nodup
    (local_optimizer : α → Option μ → α) (model : Option μ)
    (candidates : List α) (sz : Option Nat) :
    ((lazily_locally_optimize local_optimizer model candidates
      (ExclusionList.empty_list sz)).map Prod.fst).Nodup ∧
    ∀ p ∈ lazily_locally_optimize local_optimizer model candidates
        (ExclusionList.empty_list sz),
      p.2 = local_optimizer p.1 model ∧ p.1 ∈ candidates := by
  obtain ⟨h1, h2⟩ := lazily_locally_optimize_invariant local_optimizer model
    candidates (ExclusionList.empty_list sz)
  exact ⟨h1, fun p hp => ⟨(h2 p hp).2.1, (h2 p hp).2.2⟩⟩

/-- Claim C10 (confirmed): in batch-at-once mode (a single outer
iteration), `next_candidates` never mutates the exclusion registry passed
to it — the registry in the returned state is the caller's registry,
unchanged. -/
theorem batch_mode_preserves_exclusion
    (A : BayesianOptimizationAlgorithm α μ)
    (hbatch : A.greedy_batch_selection = false)
    (out : NextResult α μ) (hok : next_candidates A = Except.ok out) :
    out.exclusion = A.exclusion_candidates := by
  have h1 : numOuterIterations A = 1 := by
    unfold numOuterIterations
    rw [if_neg (by simp [hbatch])]
  rw [next_candidates_eq_ok hok, h1]
  exact (nextCandidatesLoop_one_frame A (numInnerCandidates A) true none
    A.exclusion_candidates [] [] 0 0).1

theorem batch_mode_preserves_exclusion_witness :
    ∃ out, next_candidates algBatchTwo = Except.ok out ∧
      out.exclusion = algBatchTwo.exclusion_candidates :=
  ⟨⟨[0, 1], ⟨[], some 10⟩, [], none, 1, 0⟩, rfl,
    batch_mode_preserves_exclusion algBatchTwo rfl _ rfl⟩

end SpecProof
